import Mathlib

/-!
Verification development for the analytics backend (`src/main.py`).

The development shallowly embeds the pure core of the service:

* `infer_type` — the per-value type classifier (`main.py`, `infer_type`),
  together with models of Python's `str.strip`, `int(...)` and `float(...)`
  string parsing (base-10, optional sign, underscores between digits,
  decimal/exponent floats, case-insensitive `inf`/`infinity`/`nan`).
  Float values are modelled by `PyFloat`: finite values as exact rationals,
  plus `inf`, `-inf` and `nan` with Python's comparison, addition and
  `%.2f` formatting behaviour.
* `extract` — the ingestion loop of `upload_dataset`: the bounded
  100-row sample, the per-column type-vote tally, and the winning-type
  selection performed with Python's `max` over the iteration order
  `int, float, string` (first maximal element wins).
* `generate_insights_core` — the insight engine: numeric statistics with
  `%.2f` rendering, and the categorical mode computed through
  `collections.Counter` and `most_common(1)` (first-encountered value wins
  ties).
* A small document store model (`Store`) for the endpoint-level behaviour
  of `upload_dataset`, `get_dataset` and `save_chart`, including the
  `bson.ObjectId` decode performed inside the latter two endpoints (a
  malformed id raises `InvalidId`, surfaced as a 500 server error).
-/

namespace Analytics

/-- ASCII whitespace stripped by Python `str.strip()` (the default strip
set restricted to ASCII: space, tab, newline, carriage return, vertical
tab, form feed). -/
def isPyWS (c : Char) : Bool :=
  c = ' ' || c = '\t' || c = '\n' || c = '\r' || c = '\x0b' || c = '\x0c'

/-- Model of Python `str.strip()` (ASCII whitespace). -/
def pyStrip (s : String) : String :=
  String.mk (((s.toList.dropWhile isPyWS).reverse.dropWhile isPyWS).reverse)

/-- Model of Python `str.lower()` (ASCII case folding). -/
def pyLower (s : String) : String := String.mk (s.toList.map Char.toLower)

/-- Model of Python `str.endswith(suf)`. -/
def pyEndsWith (s suf : String) : Bool :=
  suf.toList.reverse.isPrefixOf s.toList.reverse

/-- Scan helper for `underscoresOk`: `prev` is the character immediately
before the remaining list. -/
def underscoresOkFrom (prev : Char) : List Char → Bool
  | [] => true
  | '_' :: rest =>
    prev.isDigit &&
      (match rest with
       | c :: _ => c.isDigit
       | [] => false) &&
      underscoresOkFrom '_' rest
  | c :: rest => underscoresOkFrom c rest

/-- PEP 515 underscore rule used by Python's `int(...)` and `float(...)`:
every underscore must be immediately preceded and followed by a digit. -/
def underscoresOk : List Char → Bool
  | [] => true
  | '_' :: _ => false
  | c :: rest => underscoresOkFrom c rest

/-- Value of a list of decimal digit characters, most significant first. -/
def readNat (cs : List Char) : Nat :=
  cs.foldl (fun a c => a * 10 + (c.toNat - 48)) 0

/-- A non-empty all-digit character list. -/
def digits1 (cs : List Char) : Bool := !cs.isEmpty && cs.all Char.isDigit

/-- Whether Python `int(value)` succeeds on a string (base 10): optional
surrounding whitespace, optional sign, then a non-empty digit run with
underscores only between digits. -/
def pyIntOk (s : String) : Bool :=
  let cs := (pyStrip s).toList
  underscoresOk cs &&
    (match cs.filter (fun c => c ≠ '_') with
     | '+' :: rest => digits1 rest
     | '-' :: rest => digits1 rest
     | rest => digits1 rest)

/-- A Python float value: a finite value (modelled exactly as a rational),
positive or negative infinity, or `nan`. Formatting ignores the sign of
`nan`, so a single `nan` constructor suffices. Finite literals are kept
exact: the rational model abstracts from IEEE rounding and from overflow of
astronomically large finite literals. -/
inductive PyFloat where
  | finite : ℚ → PyFloat
  | pinf : PyFloat
  | ninf : PyFloat
  | nan : PyFloat
deriving DecidableEq, Repr

/-- Mantissa of a float literal (underscores already removed): either a
non-empty digit run, or two digit runs around a single dot, at least one of
them non-empty. -/
def mantissaVal (cs : List Char) : Option ℚ :=
  let ip := cs.takeWhile (fun c => c ≠ '.')
  let rest := cs.dropWhile (fun c => c ≠ '.')
  match rest with
  | [] => if digits1 ip then some (readNat ip) else none
  | _ :: fp =>
    if ip.all Char.isDigit && fp.all Char.isDigit && (!ip.isEmpty || !fp.isEmpty) then
      some ((readNat ip : ℚ) + (readNat fp : ℚ) / (10 : ℚ) ^ fp.length)
    else none

/-- Exponent part of a float literal: empty, or `e`/`E` followed by an
optional sign and a non-empty digit run. -/
def expVal : List Char → Option Int
  | [] => some 0
  | _ :: er =>
    match er with
    | '+' :: ds => if digits1 ds then some ((readNat ds : Int)) else none
    | '-' :: ds => if digits1 ds then some (-(readNat ds : Int)) else none
    | ds => if digits1 ds then some ((readNat ds : Int)) else none

/-- Model of Python `float(value)` on a string: strip whitespace, check the
underscore rule, drop underscores, take an optional sign, accept the
case-insensitive special values `inf`/`infinity` (signed) and `nan`,
otherwise parse `mantissa [exponent]`; `none` is a `ValueError`. -/
def pyFloatParse (s : String) : Option PyFloat :=
  let cs0 := (pyStrip s).toList
  if !underscoresOk cs0 then none
  else
    let cs1 := cs0.filter (fun c => c ≠ '_')
    let sgn : Bool × List Char :=
      match cs1 with
      | '+' :: r => (false, r)
      | '-' :: r => (true, r)
      | r => (false, r)
    let low := sgn.2.map Char.toLower
    if low = ['i', 'n', 'f'] ∨ low = ['i', 'n', 'f', 'i', 'n', 'i', 't', 'y'] then
      some (if sgn.1 then .ninf else .pinf)
    else if low = ['n', 'a', 'n'] then some .nan
    else
      let mant := sgn.2.takeWhile (fun c => c ≠ 'e' ∧ c ≠ 'E')
      let erest := sgn.2.dropWhile (fun c => c ≠ 'e' ∧ c ≠ 'E')
      match mantissaVal mant, expVal erest with
      | some m, some e =>
        let v := m * (10 : ℚ) ^ e
        some (.finite (if sgn.1 then -v else v))
      | _, _ => none

/-- Whether Python `float(value)` succeeds on a string. -/
def pyFloatOk (s : String) : Bool := (pyFloatParse s).isSome

/-- `infer_type` from `main.py`: empty after stripping is `"null"`, then the
cascade `int`, `float`, `"string"`. -/
def infer_type (value : String) : String :=
  if pyStrip value = "" then "null"
  else if pyIntOk value then "int"
  else if pyFloatOk value then "float"
  else "string"

/-! ## Schema/sample extraction (`upload_dataset` in `main.py`) -/

/-- A parsed CSV row as produced by `csv.DictReader`: an ordered mapping
from column name to a raw string value, `none` standing for Python `None`
(a field missing from a short row). -/
abbrev Row := List (String × Option String)

/-- The per-column vote counters `{"int": 0, "float": 0, "string": 0,
"null": 0}` kept in `type_counts`. -/
structure TypeCounts where
  tInt : Nat
  tFloat : Nat
  tString : Nat
  tNull : Nat
deriving DecidableEq, Repr

/-- `type_counts[k][t] += 1`. -/
def bump (c : TypeCounts) (t : String) : TypeCounts :=
  if t = "int" then ⟨c.tInt + 1, c.tFloat, c.tString, c.tNull⟩
  else if t = "float" then ⟨c.tInt, c.tFloat + 1, c.tString, c.tNull⟩
  else if t = "string" then ⟨c.tInt, c.tFloat, c.tString + 1, c.tNull⟩
  else ⟨c.tInt, c.tFloat, c.tString, c.tNull + 1⟩

/-- The `type_counts` dictionary, as an association list in key insertion
order: `if k not in type_counts: type_counts[k] = zeros` followed by the
increment for type `t`. -/
def addVote (tc : List (String × TypeCounts)) (k : String) (t : String) :
    List (String × TypeCounts) :=
  match tc with
  | [] => [(k, bump ⟨0, 0, 0, 0⟩ t)]
  | (k', c) :: rest =>
    if k' = k then (k', bump c t) :: rest else (k', c) :: addVote rest k t

/-- The inner loop `for k, v in row.items()` of `upload_dataset`: each value
is classified with `infer_type(str(v) if v is not None else "")` and voted
into `type_counts`. -/
def tallyRow (tc : List (String × TypeCounts)) (row : Row) :
    List (String × TypeCounts) :=
  row.foldl (fun acc kv => addVote acc kv.1 (infer_type (kv.2.getD ""))) tc

/-- The full tally after the `for row in reader` loop. -/
def finalTally (rows : List Row) : List (String × TypeCounts) :=
  rows.foldl tallyRow []

/-- Python `max(..., key=lambda x: x[1])`: fold that replaces the current
best only on a strictly larger second component, so the first maximal
element of the iteration wins. -/
def pyMaxBySnd (start : String × Nat) (l : List (String × Nat)) : String × Nat :=
  l.foldl (fun acc kv => if acc.2 < kv.2 then kv else acc) start

/-- Winning type of a column: Python `max` over the non-`"null"` entries of
the votes dictionary, iterated in insertion order `int`, `float`, `string`. -/
def bestType (c : TypeCounts) : String :=
  (pyMaxBySnd ("int", c.tInt) [("float", c.tFloat), ("string", c.tString)]).1

/-- The `columns_meta` list: one `(name, type)` descriptor per tallied
column, in `type_counts` insertion order. -/
def columnsMeta (tc : List (String × TypeCounts)) : List (String × String) :=
  tc.map (fun p => (p.1, bestType p.2))

/-- An HTTP error raised via `HTTPException(status_code, detail)`. -/
structure HTTPErr where
  status : Nat
  detail : String
deriving DecidableEq, Repr

/-- Result of the extraction phase of `upload_dataset`: column descriptors,
the preview sample (first `max_preview = 100` rows) and the total row
count. -/
structure ExtractResult where
  columns : List (String × String)
  sample : List Row
  row_count : Nat
deriving DecidableEq, Repr

/-- The extraction phase of `upload_dataset` over the parsed row sequence:
counts every row, keeps the first 100 rows as the sample, tallies type
votes for every key of every row, rejects a zero-row input with a 400, and
otherwise derives the winning type of each column. -/
def extract (rows : List Row) : Except HTTPErr ExtractResult :=
  if rows.length = 0 then .error ⟨400, "Empty CSV or failed to parse"⟩
  else
    .ok ⟨columnsMeta (finalTally rows), rows.take 100, rows.length⟩

/-! ## Document store model and endpoints -/

/-- The stored dataset document built by `upload_dataset`. -/
structure DatasetDoc where
  name : String
  columns : List (String × String)
  sample : List Row
  row_count : Nat
deriving DecidableEq, Repr

/-- The `CreateChart` request payload (and the chart document persisted
from it via `payload.model_dump()`). -/
structure CreateChart where
  dataset_id : String
  title : String
  chart_type : String
  x : String
  y : Option String
  agg : Option String
  options : List (String × String)
deriving DecidableEq, Repr

/-- The document store: the `dataset` and `chart` collections as id-keyed
association lists, plus a counter supplying fresh opaque ids. -/
structure Store where
  datasets : List (String × DatasetDoc)
  charts : List (String × CreateChart)
  nextId : Nat
deriving DecidableEq, Repr

/-- A hexadecimal digit, as accepted by Python `bytes.fromhex`. -/
def isHexChar (c : Char) : Bool :=
  c.isDigit || ('a' ≤ c && c ≤ 'f') || ('A' ≤ c && c ≤ 'F')

/-- The grammar of Python `bytes.fromhex`: pairs of hex digits, with
spaces allowed between pairs but not inside a pair. -/
def fromHexOk : List Char → Bool
  | [] => true
  | ' ' :: rest => fromHexOk rest
  | c1 :: c2 :: rest => isHexChar c1 && isHexChar c2 && fromHexOk rest
  | [_] => false

/-- Whether `bson.ObjectId(id)` succeeds on a string: exactly 24
characters that `bytes.fromhex` accepts; otherwise it raises `InvalidId`. -/
def validObjectId (id : String) : Bool :=
  id.length = 24 && fromHexOk id.toList

/-- `db["dataset"].find_one({"_id": oid})` on an already-decoded ObjectId,
through the adapter contract of the spec: every decoded id either maps to
a stored document or is absent. -/
def findDataset (st : Store) (id : String) : Option DatasetDoc :=
  match st.datasets.find? (fun p => p.1 = id) with
  | some p => some p.2
  | none => none

/-- The fresh id the store hands out for the next created document. -/
def freshId (st : Store) : String := toString st.nextId

/-- Python `name or file.filename`: an absent or empty display name falls
back to the filename. -/
def nameOrFilename (nm : Option String) (filename : String) : String :=
  match nm with
  | some s => if s = "" then filename else s
  | none => filename

/-- `filename.lower().endswith(".csv")`. -/
def csvNamed (filename : String) : Bool := pyEndsWith (pyLower filename) ".csv"

/-- The `upload_dataset` endpoint on a parsed row sequence, with the store
configured: file-type gate, extraction, then a single store write. The
returned store is unchanged on every error path. -/
def upload_dataset (st : Store) (filename : String) (nm : Option String)
    (rows : List Row) : Except HTTPErr (String × DatasetDoc) × Store :=
  if csvNamed filename then
    match extract rows with
    | .error e => (.error e, st)
    | .ok res =>
      let doc : DatasetDoc :=
        ⟨nameOrFilename nm filename, res.columns, res.sample, res.row_count⟩
      let did := freshId st
      (.ok (did, doc),
        { st with datasets := st.datasets ++ [(did, doc)], nextId := st.nextId + 1 })
  else (.error ⟨400, "Only CSV files are supported"⟩, st)

/-- The `get_dataset` endpoint with the store configured: a malformed id
makes `ObjectId(dataset_id)` raise an unhandled `InvalidId`, surfaced by
the framework as a 500 Internal Server Error; otherwise the stored
document for the id, or a 404. -/
def get_dataset (st : Store) (id : String) : Except HTTPErr DatasetDoc :=
  if validObjectId id then
    match findDataset st id with
    | some d => .ok d
    | none => .error ⟨404, "Dataset not found"⟩
  else .error ⟨500, "Internal Server Error"⟩

/-- The `save_chart` endpoint with the store configured: a malformed
`dataset_id` makes `ObjectId(payload.dataset_id)` raise an unhandled
`InvalidId`, surfaced as a 500 Internal Server Error; otherwise the
referential check on `dataset_id`, then a single store write. The returned
store is unchanged on every error path. -/
def save_chart (st : Store) (p : CreateChart) :
    Except HTTPErr (String × CreateChart) × Store :=
  if validObjectId p.dataset_id then
    match findDataset st p.dataset_id with
    | none => (.error ⟨400, "Related dataset not found"⟩, st)
    | some _ =>
      let cid := freshId st
      (.ok (cid, p),
        { st with charts := st.charts ++ [(cid, p)], nextId := st.nextId + 1 })
  else (.error ⟨500, "Internal Server Error"⟩, st)

/-! ## Insight engine (`generate_insights` in `main.py`) -/

/-- A JSON-ish Python value found in a stored sample cell: `None`, a
string, or an integer. -/
inductive PyVal where
  | pnone : PyVal
  | pstr : String → PyVal
  | pint : Int → PyVal
deriving DecidableEq, Repr

/-- Python `str(v)` on a sample cell value. -/
def pyStr : PyVal → String
  | .pnone => "None"
  | .pstr s => s
  | .pint n => toString n

/-- A stored sample row as read back in `generate_insights`. -/
abbrev InsightRow := List (String × PyVal)

/-- Python `r.get(col)`: the stored value, or `None` when the key is
absent. -/
def pyGet (r : InsightRow) (k : String) : PyVal :=
  match r.find? (fun p => p.1 = k) with
  | some p => p.2
  | none => .pnone

/-- Python `float(v)` on a sample cell value: fails on `None`, is exact on
an `int`, and parses a string as a float (including the non-finite values
`inf`, `-inf` and `nan`, which Python's `float()` accepts). -/
def pyFloatOfVal : PyVal → Option PyFloat
  | .pnone => none
  | .pint n => some (.finite (n : ℚ))
  | .pstr s => pyFloatParse s

/-- The `vals` list built for one numeric column: skip a missing (`None`)
value, skip a value whose `str(v).strip()` is empty, append `float(v)`
when it parses, and continue silently otherwise. -/
def numericVals (col : String) (sample : List InsightRow) : List PyFloat :=
  sample.foldl
    (fun vals r =>
      let v := pyGet r col
      if v = .pnone then vals
      else if pyStrip (pyStr v) = "" then vals
      else
        match pyFloatOfVal v with
        | some q => vals ++ [q]
        | none => vals)
    []

/-- Python's `<` on floats: any comparison involving `nan` is false, the
infinities compare below/above every other value, finite values compare
exactly. -/
def pyLt : PyFloat → PyFloat → Bool
  | .finite a, .finite b => decide (a < b)
  | .nan, _ => false
  | _, .nan => false
  | .ninf, .ninf => false
  | .ninf, _ => true
  | _, .ninf => false
  | .pinf, _ => false
  | _, .pinf => true

/-- Python `min` over a non-empty list: scan that replaces the current best
exactly when `item < best`. -/
def pyMin (x : PyFloat) (xs : List PyFloat) : PyFloat :=
  xs.foldl (fun acc y => if pyLt y acc then y else acc) x

/-- Python `max` over a non-empty list: scan that replaces the current best
exactly when `best < item`. -/
def pyMax (x : PyFloat) (xs : List PyFloat) : PyFloat :=
  xs.foldl (fun acc y => if pyLt acc y then y else acc) x

/-- IEEE addition on the model: `nan` absorbs, opposite infinities give
`nan`, an infinity absorbs finite values, finite addition is exact. -/
def pyAdd : PyFloat → PyFloat → PyFloat
  | .finite a, .finite b => .finite (a + b)
  | .nan, _ => .nan
  | _, .nan => .nan
  | .pinf, .ninf => .nan
  | .ninf, .pinf => .nan
  | .pinf, _ => .pinf
  | _, .pinf => .pinf
  | .ninf, _ => .ninf
  | _, .ninf => .ninf

/-- Python `sum(vals)`: left fold of `+` from 0. -/
def pySum (l : List PyFloat) : PyFloat := l.foldl pyAdd (.finite 0)

/-- Division of a float by a positive length (`sum(vals) / len(vals)`). -/
def pyDivNat (x : PyFloat) (n : Nat) : PyFloat :=
  match x with
  | .finite a => .finite (a / (n : ℚ))
  | .pinf => .pinf
  | .ninf => .ninf
  | .nan => .nan

/-- Round half to even to an integer, the rounding of Python's `format`. -/
def roundHalfEven (x : ℚ) : Int :=
  let f := ⌊x⌋
  let r := x - (f : ℚ)
  if r < 1 / 2 then f
  else if 1 / 2 < r then f + 1
  else if f % 2 = 0 then f else f + 1

/-- Python `f"{q:.2f}"` on a finite float: sign of the value, integer part,
and exactly two fractional digits. -/
def fmt2 (q : ℚ) : String :=
  let a := if q < 0 then -q else q
  let m := (roundHalfEven (a * 100)).toNat
  (if q < 0 then "-" else "") ++ toString (m / 100) ++ "." ++
    String.mk [Nat.digitChar (m % 100 / 10), Nat.digitChar (m % 10)]

/-- Python `f"{x:.2f}"` on any float: the non-finite values render as
`inf`, `-inf` and `nan`. -/
def fmt2F : PyFloat → String
  | .finite q => fmt2 q
  | .pinf => "inf"
  | .ninf => "-inf"
  | .nan => "nan"

/-- The detail line produced for one numeric column, if any: present
exactly when at least one sample value parsed. -/
def numericDetail (col : String) (sample : List InsightRow) : Option String :=
  match numericVals col sample with
  | [] => none
  | v :: vs =>
    let avg := pyDivNat (pySum (v :: vs)) (v :: vs).length
    some (col ++ ": avg " ++ fmt2F avg ++ ", min " ++ fmt2F (pyMin v vs) ++
      ", max " ++ fmt2F (pyMax v vs) ++ " based on sample")

/-- The list fed to `Counter` for one categorical column:
`[str(r.get(col)) for r in sample if r.get(col) not in (None, "")]`. -/
def catVals (col : String) (sample : List InsightRow) : List String :=
  sample.foldl
    (fun acc r =>
      let v := pyGet r col
      if v = .pnone ∨ v = .pstr "" then acc else acc ++ [pyStr v])
    []

/-- One `Counter` update: increment an existing key in place, or append a
new key with count 1 (dict insertion order). -/
def counterAdd (acc : List (String × Nat)) (s : String) : List (String × Nat) :=
  match acc with
  | [] => [(s, 1)]
  | (k, n) :: rest =>
    if k = s then (k, n + 1) :: rest else (k, n) :: counterAdd rest s

/-- `collections.Counter` over a list of strings, as an association list in
first-encountered order. -/
def counter (l : List String) : List (String × Nat) := l.foldl counterAdd []

/-- The scan underlying `heapq.nlargest(1, ...)`: keep the current best,
replace only on a strictly larger count, so the first maximal entry wins. -/
def pickMax (x : String × Nat) (xs : List (String × Nat)) : String × Nat :=
  xs.foldl (fun acc kv => if acc.2 < kv.2 then kv else acc) x

/-- `Counter.most_common(1)[0]` of a counter, or `none` when it is empty. -/
def mostCommon1 (c : List (String × Nat)) : Option (String × Nat) :=
  match c with
  | [] => none
  | x :: xs => some (pickMax x xs)

/-- The detail line produced for one categorical column, if any: present
exactly when the counter is non-empty. -/
def catDetail (col : String) (sample : List InsightRow) : Option String :=
  match mostCommon1 (counter (catVals col sample)) with
  | none => none
  | some (top, cnt) =>
    some (col ++ ": most frequent value is '" ++ top ++ "' (" ++
      toString cnt ++ " occurrences in sample)")

/-- The insight engine body of `generate_insights`: partition the declared
columns by type, collect the numeric detail lines then the categorical
detail lines, and pair them with the fixed summary string. -/
def generate_insights_core (columns : List (String × String))
    (sample : List InsightRow) : String × List String :=
  let numeric_cols :=
    (columns.filter (fun c => c.2 = "int" ∨ c.2 = "float")).map Prod.fst
  let categorical_cols := (columns.filter (fun c => c.2 = "string")).map Prod.fst
  let d1 := numeric_cols.foldl
    (fun acc c =>
      match numericDetail c sample with
      | some line => acc ++ [line]
      | none => acc)
    []
  let details := categorical_cols.foldl
    (fun acc c =>
      match catDetail c sample with
      | some line => acc ++ [line]
      | none => acc)
    d1
  ("Quick AI-style summary based on your data sample.", details)

/-- Keys of an association list, in order. -/
def keysOf {α : Type} (c : List (String × α)) : List String := c.map Prod.fst

/-- Index of the first occurrence of a string in a list (length of the list
when absent). -/
def firstIdx (a : String) : List String → Nat
  | [] => 0
  | b :: l => if b = a then 0 else firstIdx a l + 1

/-! ## General lemmas -/

attribute [local semireducible] Rat.add Rat.mul Rat.inv Rat.sub

/-- Inverting a successful extraction: the result is exactly the record
built from the full tally, the 100-row sample and the row count, and the
input was non-empty. -/
theorem extract_ok (rows : List Row) (res : ExtractResult)
    (h : extract rows = .ok res) :
    res = ⟨columnsMeta (finalTally rows), rows.take 100, rows.length⟩ ∧
      rows ≠ [] := by
  unfold extract at h
  split at h
  · exact absurd h (by simp)
  next hlen =>
    injection h with h
    refine ⟨h.symm, ?_⟩
    intro hnil
    exact hlen (by simp [hnil])

/-! ## Claim theorems -/

/-- Claim C2: `infer_type` is a total pure function returning one of the
four labels `null`, `int`, `float`, `string`, and it classifies the seven
reference inputs as the spec states. -/
theorem infer_type_total_and_examples :
    (∀ s : String,
      infer_type s = "null" ∨ infer_type s = "int" ∨ infer_type s = "float" ∨
        infer_type s = "string") ∧
    infer_type "" = "null" ∧ infer_type " " = "null" ∧
    infer_type "42" = "int" ∧ infer_type "42.5" = "float" ∧
    infer_type "-3" = "int" ∧ infer_type "abc" = "string" ∧
    infer_type "1e10" = "float" := by
  refine ⟨fun s => ?_, by decide, by decide, by decide, by decide, by decide,
    by decide, by decide⟩
  unfold infer_type
  split
  · exact Or.inl rfl
  · split
    · exact Or.inr (Or.inl rfl)
    · split
      · exact Or.inr (Or.inr (Or.inl rfl))
      · exact Or.inr (Or.inr (Or.inr rfl))

/-- Claim C3: on every successful extraction the sample is exactly the
first `min(row_count, 100)` input rows, verbatim and in source order. -/
theorem sample_is_first_min_rows (rows : List Row) (res : ExtractResult)
    (h : extract rows = .ok res) :
    res.sample = rows.take 100 ∧
      res.sample.length = min res.row_count 100 := by
  obtain ⟨rfl, -⟩ := extract_ok rows res h
  refine ⟨rfl, ?_⟩
  simp only [List.length_take]
  omega

/-- Witness for C3 at a concrete one-row input. -/
theorem sample_is_first_min_rows_witness :
    (ExtractResult.mk [("a", "int")] [[("a", some "1")]] 1).sample =
        [[("a", some "1")]].take 100 ∧
      (ExtractResult.mk [("a", "int")] [[("a", some "1")]] 1).sample.length =
        min (ExtractResult.mk [("a", "int")] [[("a", some "1")]] 1).row_count
          100 :=
  sample_is_first_min_rows [[("a", some "1")]] _ rfl

/-- Counterexample to claim C1 as stated: a column seen only with a null
value gets an all-zero tally, and the winning type the code selects is
`"int"` (the first entry of the votes dictionary), not `"string"`. -/
theorem allnull_wins_int_not_string :
    (extract [[("a", some "")]]).toOption.map ExtractResult.columns =
        some [("a", "int")] ∧ ("int" : String) ≠ "string" :=
  ⟨by decide, by decide⟩

/-- Amended claim C1: a column whose tally is all zeroes among
`int`/`float`/`string` still appears among the column descriptors, with
winning type `"int"` (the first candidate in the fixed iteration order
`int`, `float`, `string`), rather than causing an error. -/
theorem allzero_tally_defaults_to_int (rows : List Row) (res : ExtractResult)
    (k : String) (c : TypeCounts) (h : extract rows = .ok res)
    (hmem : (k, c) ∈ finalTally rows) (h1 : c.tInt = 0) (h2 : c.tFloat = 0)
    (h3 : c.tString = 0) : (k, "int") ∈ res.columns := by
  obtain ⟨rfl, -⟩ := extract_ok rows res h
  have hbest : bestType c = "int" := by
    simp [bestType, pyMaxBySnd, h1, h2, h3]
  exact List.mem_map.mpr ⟨(k, c), hmem, by simp [hbest]⟩

/-- Witness for the amended C1 at a concrete all-null column. -/
theorem allzero_tally_defaults_to_int_witness :
    ("a", "int") ∈
      (ExtractResult.mk [("a", "int")] [[("a", some "")]] 1).columns :=
  allzero_tally_defaults_to_int [[("a", some "")]] _ "a" ⟨0, 0, 0, 1⟩
    rfl (by decide) rfl rfl rfl

/-- Counterexample to claim C8 as stated: the id `"xyz"` is not a valid
ObjectId string, so `ObjectId(dataset_id)` raises an unhandled `InvalidId`
surfaced as a 500 server error — a third outcome, neither the stored
record nor the 404 not-found error. -/
theorem malformed_dataset_id_is_third_outcome :
    get_dataset ⟨[], [], 0⟩ "xyz" =
        .error ⟨500, "Internal Server Error"⟩ ∧
      (HTTPErr.mk 500 "Internal Server Error") ≠
        ⟨404, "Dataset not found"⟩ :=
  ⟨rfl, by decide⟩

/-- Amended claim C8: with the store configured, `get_dataset` on a
well-formed ObjectId string either returns the stored record for the id or
fails with the 404 not-found error, while a malformed id string fails with
the unhandled-`InvalidId` 500 server error; no other outcome exists. -/
theorem get_dataset_total_outcomes (st : Store) (id : String) :
    (validObjectId id = true →
      (∃ d, findDataset st id = some d ∧ get_dataset st id = .ok d) ∨
        get_dataset st id = .error ⟨404, "Dataset not found"⟩) ∧
    (validObjectId id = false →
      get_dataset st id = .error ⟨500, "Internal Server Error"⟩) := by
  constructor
  · intro hv
    cases h : findDataset st id with
    | some d => exact Or.inl ⟨d, rfl, by simp [get_dataset, hv, h]⟩
    | none => exact Or.inr (by simp [get_dataset, hv, h])
  · intro hv
    simp [get_dataset, hv]

/-- Witness for the amended C8 at a concrete stored id. -/
theorem get_dataset_total_outcomes_witness :
    (∃ d,
      findDataset ⟨[("0123456789abcdef01234567", ⟨"n", [], [], 1⟩)], [], 0⟩
          "0123456789abcdef01234567" = some d ∧
        get_dataset ⟨[("0123456789abcdef01234567", ⟨"n", [], [], 1⟩)], [], 0⟩
          "0123456789abcdef01234567" = .ok d) ∨
      get_dataset ⟨[("0123456789abcdef01234567", ⟨"n", [], [], 1⟩)], [], 0⟩
          "0123456789abcdef01234567" =
        .error ⟨404, "Dataset not found"⟩ :=
  (get_dataset_total_outcomes
    ⟨[("0123456789abcdef01234567", ⟨"n", [], [], 1⟩)], [], 0⟩
    "0123456789abcdef01234567").1 (by decide)

/-- Counterexample to claim C7 as stated: the `dataset_id` `"xyz"`
references no stored dataset, yet the operation fails with the
unhandled-`InvalidId` 500 server error (`ObjectId(payload.dataset_id)`
raises before `find_one`), not with the claimed client error. -/
theorem malformed_chart_dataset_id_is_server_error :
    findDataset ⟨[], [], 0⟩ "xyz" = none ∧
    save_chart ⟨[], [], 0⟩ ⟨"xyz", "t", "bar", "x", none, none, []⟩ =
      (.error ⟨500, "Internal Server Error"⟩, ⟨[], [], 0⟩) ∧
    (500 : Nat) ≠ 400 :=
  ⟨rfl, rfl, by decide⟩

/-- Amended claim C7: `save_chart` with a malformed `dataset_id` fails
with the unhandled-`InvalidId` 500 server error and persists nothing; with
a well-formed `dataset_id` that references no stored dataset it fails with
a 400 client error and persists nothing; with a `dataset_id` referencing
an existing dataset it persists the chart and returns it with the
generated id. -/
theorem save_chart_checks_reference (st : Store) (p : CreateChart) :
    (validObjectId p.dataset_id = false →
      save_chart st p = (.error ⟨500, "Internal Server Error"⟩, st)) ∧
    (validObjectId p.dataset_id = true →
      findDataset st p.dataset_id = none →
      save_chart st p = (.error ⟨400, "Related dataset not found"⟩, st)) ∧
    (∀ d, validObjectId p.dataset_id = true →
      findDataset st p.dataset_id = some d →
      ∃ cid st', save_chart st p = (.ok (cid, p), st') ∧
        (cid, p) ∈ st'.charts ∧ st'.datasets = st.datasets) := by
  refine ⟨?_, ?_, ?_⟩
  · intro hv
    simp [save_chart, hv]
  · intro hv h
    simp [save_chart, hv, h]
  · intro d hv h
    refine ⟨freshId st,
      ⟨st.datasets, st.charts ++ [(freshId st, p)], st.nextId + 1⟩, ?_, ?_, rfl⟩
    · simp [save_chart, hv, h]
    · simp

/-- Witness for the amended C7: a concrete existing dataset reference is
persisted. -/
theorem save_chart_checks_reference_witness :
    ∃ cid st',
      save_chart
          ⟨[("0123456789abcdef01234567", ⟨"n", [], [], 1⟩)], [], 2⟩
          ⟨"0123456789abcdef01234567", "t", "bar", "x", none, none, []⟩ =
        (.ok (cid,
          ⟨"0123456789abcdef01234567", "t", "bar", "x", none, none, []⟩),
          st') ∧
      (cid,
        (⟨"0123456789abcdef01234567", "t", "bar", "x", none, none, []⟩ :
          CreateChart)) ∈ st'.charts ∧
      st'.datasets =
        (⟨[("0123456789abcdef01234567", ⟨"n", [], [], 1⟩)], [], 2⟩ :
          Store).datasets :=
  (save_chart_checks_reference
    ⟨[("0123456789abcdef01234567", ⟨"n", [], [], 1⟩)], [], 2⟩
    ⟨"0123456789abcdef01234567", "t", "bar", "x", none, none, []⟩).2.2
    ⟨"n", [], [], 1⟩ (by decide) (by decide)

/-- Claim C4: a row sequence with zero data rows makes the upload fail with
the empty-input 400 error, with the store untouched; every non-empty row
sequence proceeds to a persisted dataset whose `row_count` is the number of
input rows (so a single-row input succeeds with `row_count = 1`). -/
theorem empty_input_fatal_nonempty_persists (st : Store) (filename : String)
    (nm : Option String) (rows : List Row) (hcsv : csvNamed filename = true) :
    (rows = [] →
      upload_dataset st filename nm rows =
        (.error ⟨400, "Empty CSV or failed to parse"⟩, st)) ∧
    (rows ≠ [] →
      ∃ did doc st',
        upload_dataset st filename nm rows = (.ok (did, doc), st') ∧
        doc.row_count = rows.length ∧ (did, doc) ∈ st'.datasets) := by
  constructor
  · intro h
    subst h
    simp [upload_dataset, hcsv, extract]
  · intro hne
    have hlen : ¬rows.length = 0 := by simpa using hne
    refine ⟨freshId st,
      ⟨nameOrFilename nm filename, columnsMeta (finalTally rows),
        rows.take 100, rows.length⟩,
      ⟨st.datasets ++
          [(freshId st,
            ⟨nameOrFilename nm filename, columnsMeta (finalTally rows),
              rows.take 100, rows.length⟩)],
        st.charts, st.nextId + 1⟩, ?_, rfl, ?_⟩
    · simp [upload_dataset, hcsv, extract, hlen]
    · simp

/-- Witness for C4: a concrete single-row upload persists with
`row_count = 1`. -/
theorem empty_input_fatal_nonempty_persists_witness :
    ∃ did doc st',
      upload_dataset ⟨[], [], 0⟩ "t.csv" none [[("a", some "1")]] =
        (.ok (did, doc), st') ∧
      doc.row_count = [[(("a" : String), some "1")]].length ∧
      (did, doc) ∈ st'.datasets :=
  (empty_input_fatal_nonempty_persists ⟨[], [], 0⟩ "t.csv" none
    [[("a", some "1")]] (by decide)).2 (by decide)

/-- A left fold that appends an optional element per input is a
`filterMap`. -/
theorem foldl_push_filterMap {α β : Type} (g : List β → α → List β)
    (f : α → Option β)
    (hg : ∀ a x, g a x = match f x with | some b => a ++ [b] | none => a) :
    ∀ (l : List α) (acc : List β), l.foldl g acc = acc ++ l.filterMap f := by
  intro l
  induction l with
  | nil => intro acc; simp
  | cons x xs ih =>
    intro acc
    rw [List.foldl_cons, hg, ih]
    cases h : f x <;> simp [List.filterMap_cons, h]

/-- The `vals` loop of a numeric column is the `filterMap` that keeps the
parsed values of the present, non-blank cells. -/
theorem numericVals_eq_filterMap (col : String) (sample : List InsightRow) :
    numericVals col sample =
      sample.filterMap (fun r =>
        if pyGet r col = .pnone then none
        else if pyStrip (pyStr (pyGet r col)) = "" then none
        else pyFloatOfVal (pyGet r col)) := by
  unfold numericVals
  rw [foldl_push_filterMap _ _ ?hg, List.nil_append]
  case hg =>
    intro a r
    by_cases h1 : pyGet r col = .pnone
    · simp [h1]
    · by_cases h2 : pyStrip (pyStr (pyGet r col)) = ""
      · simp [h1, h2]
      · simp only [h1, h2, if_false]
        cases pyFloatOfVal (pyGet r col) <;> simp

/-- The comprehension feeding `Counter` for a categorical column is the
`filterMap` that keeps `str(v)` for every value other than `None` and the
empty string. -/
theorem catVals_eq_filterMap (col : String) (sample : List InsightRow) :
    catVals col sample =
      sample.filterMap (fun r =>
        if pyGet r col = .pnone ∨ pyGet r col = .pstr "" then none
        else some (pyStr (pyGet r col))) := by
  unfold catVals
  rw [foldl_push_filterMap _ _ ?hg, List.nil_append]
  case hg =>
    intro a r
    by_cases h : pyGet r col = .pnone ∨ pyGet r col = .pstr ""
    · simp [h]
    · simp [h]

/-- `pyLt` is irreflexive. -/
theorem pyLt_irrefl (x : PyFloat) : pyLt x x = false := by
  cases x <;> simp [pyLt]

/-- `pyLt` is asymmetric. -/
theorem pyLt_asymm (x y : PyFloat) (h : pyLt x y = true) :
    pyLt y x = false := by
  cases x <;> cases y <;> simp_all [pyLt]
  exact le_of_lt h

/-- `pyLt` is transitive (comparisons involving `nan` are never true). -/
theorem pyLt_trans (x y z : PyFloat) (hxy : pyLt x y = true)
    (hyz : pyLt y z = true) : pyLt x z = true := by
  cases x <;> cases y <;> cases z <;> simp_all [pyLt]
  exact lt_trans hxy hyz

/-- The Python-min scan lands in `x :: xs`. -/
theorem pyMin_mem (xs : List PyFloat) : ∀ x : PyFloat, pyMin x xs ∈ x :: xs := by
  induction xs with
  | nil => intro x; simp [pyMin]
  | cons a as ih =>
    intro x
    rw [show pyMin x (a :: as) = pyMin (if pyLt a x then a else x) as from rfl]
    rcases List.mem_cons.mp (ih (if pyLt a x then a else x)) with h' | h'
    · rw [h']
      by_cases h : pyLt a x = true
      · rw [if_pos h]
        exact List.mem_cons_of_mem _ (List.mem_cons_self _ _)
      · rw [if_neg h]
        exact List.mem_cons_self _ _
    · exact List.mem_cons_of_mem _ (List.mem_cons_of_mem _ h')

/-- The Python-min scan result equals the start or is strictly below it. -/
theorem pyMin_le_init (xs : List PyFloat) :
    ∀ x : PyFloat, pyMin x xs = x ∨ pyLt (pyMin x xs) x = true := by
  induction xs with
  | nil => intro x; exact Or.inl rfl
  | cons a as ih =>
    intro x
    rw [show pyMin x (a :: as) = pyMin (if pyLt a x then a else x) as from rfl]
    by_cases h : pyLt a x = true
    · rw [if_pos h]
      rcases ih a with h' | h'
      · exact Or.inr (by rw [h']; exact h)
      · exact Or.inr (pyLt_trans _ a x h' h)
    · rw [if_neg h]
      exact ih x

/-- No element of `x :: xs` is strictly below the Python-min scan result. -/
theorem pyMin_not_lt (xs : List PyFloat) :
    ∀ x y : PyFloat, y ∈ x :: xs → pyLt y (pyMin x xs) = false := by
  induction xs with
  | nil =>
    intro x y hy
    simp only [List.mem_singleton] at hy
    simpa [pyMin, hy] using pyLt_irrefl x
  | cons a as ih =>
    intro x y hy
    rw [show pyMin x (a :: as) = pyMin (if pyLt a x then a else x) as from rfl]
    by_cases h : pyLt a x = true
    · rw [if_pos h]
      rcases List.mem_cons.mp hy with h' | h'
      · rw [h']
        cases hc : pyLt x (pyMin a as) with
        | false => rfl
        | true =>
          have hxa : pyLt x a = true := by
            rcases pyMin_le_init as a with h2 | h2
            · rw [h2] at hc
              exact hc
            · exact pyLt_trans _ _ _ hc h2
          rw [pyLt_asymm a x h] at hxa
          exact absurd hxa Bool.false_ne_true
      · exact ih a y h'
    · rw [if_neg h]
      rcases List.mem_cons.mp hy with h' | h'
      · exact ih x y (h' ▸ List.mem_cons_self _ _)
      · rcases List.mem_cons.mp h' with h'' | h''
        · rw [h'']
          cases hc : pyLt a (pyMin x as) with
          | false => rfl
          | true =>
            have hax : pyLt a x = true := by
              rcases pyMin_le_init as x with h2 | h2
              · rw [h2] at hc
                exact hc
              · exact pyLt_trans _ _ _ hc h2
            rw [hax] at h
            exact absurd rfl h
        · exact ih x y (List.mem_cons_of_mem _ h'')

/-- The Python-max scan lands in `x :: xs`. -/
theorem pyMax_mem (xs : List PyFloat) : ∀ x : PyFloat, pyMax x xs ∈ x :: xs := by
  induction xs with
  | nil => intro x; simp [pyMax]
  | cons a as ih =>
    intro x
    rw [show pyMax x (a :: as) = pyMax (if pyLt x a then a else x) as from rfl]
    rcases List.mem_cons.mp (ih (if pyLt x a then a else x)) with h' | h'
    · rw [h']
      by_cases h : pyLt x a = true
      · rw [if_pos h]
        exact List.mem_cons_of_mem _ (List.mem_cons_self _ _)
      · rw [if_neg h]
        exact List.mem_cons_self _ _
    · exact List.mem_cons_of_mem _ (List.mem_cons_of_mem _ h')

/-- The Python-max scan result equals the start or is strictly above it. -/
theorem pyMax_ge_init (xs : List PyFloat) :
    ∀ x : PyFloat, pyMax x xs = x ∨ pyLt x (pyMax x xs) = true := by
  induction xs with
  | nil => intro x; exact Or.inl rfl
  | cons a as ih =>
    intro x
    rw [show pyMax x (a :: as) = pyMax (if pyLt x a then a else x) as from rfl]
    by_cases h : pyLt x a = true
    · rw [if_pos h]
      rcases ih a with h' | h'
      · exact Or.inr (by rw [h']; exact h)
      · exact Or.inr (pyLt_trans x a _ h h')
    · rw [if_neg h]
      exact ih x

/-- No element of `x :: xs` is strictly above the Python-max scan result. -/
theorem pyMax_not_gt (xs : List PyFloat) :
    ∀ x y : PyFloat, y ∈ x :: xs → pyLt (pyMax x xs) y = false := by
  induction xs with
  | nil =>
    intro x y hy
    simp only [List.mem_singleton] at hy
    simpa [pyMax, hy] using pyLt_irrefl x
  | cons a as ih =>
    intro x y hy
    rw [show pyMax x (a :: as) = pyMax (if pyLt x a then a else x) as from rfl]
    by_cases h : pyLt x a = true
    · rw [if_pos h]
      rcases List.mem_cons.mp hy with h' | h'
      · rw [h']
        cases hc : pyLt (pyMax a as) x with
        | false => rfl
        | true =>
          have hax : pyLt a x = true := by
            rcases pyMax_ge_init as a with h2 | h2
            · rw [h2] at hc
              exact hc
            · exact pyLt_trans _ _ _ h2 hc
          rw [pyLt_asymm x a h] at hax
          exact absurd hax Bool.false_ne_true
      · exact ih a y h'
    · rw [if_neg h]
      rcases List.mem_cons.mp hy with h' | h'
      · exact ih x y (h' ▸ List.mem_cons_self _ _)
      · rcases List.mem_cons.mp h' with h'' | h''
        · rw [h'']
          cases hc : pyLt (pyMax x as) a with
          | false => rfl
          | true =>
            have hxa : pyLt x a = true := by
              rcases pyMax_ge_init as x with h2 | h2
              · rw [h2] at hc
                exact hc
              · exact pyLt_trans _ _ _ h2 hc
            rw [hxa] at h
            exact absurd rfl h
        · exact ih x y (List.mem_cons_of_mem _ h'')

/-- `Nat.digitChar` of a digit is a digit character. -/
theorem digitChar_isDigit (n : Nat) (h : n < 10) :
    (Nat.digitChar n).isDigit := by
  interval_cases n <;> decide

/-- `fmt2` always renders with exactly two fractional digits. -/
theorem fmt2_two_fractional_digits (q : ℚ) :
    ∃ s c₁ c₂, fmt2 q = s ++ "." ++ String.mk [c₁, c₂] ∧
      c₁.isDigit ∧ c₂.isDigit := by
  refine ⟨(if q < 0 then "-" else "") ++
      toString ((roundHalfEven ((if q < 0 then -q else q) * 100)).toNat / 100),
    Nat.digitChar
      ((roundHalfEven ((if q < 0 then -q else q) * 100)).toNat % 100 / 10),
    Nat.digitChar ((roundHalfEven ((if q < 0 then -q else q) * 100)).toNat % 10),
    rfl, ?_, ?_⟩
  · exact digitChar_isDigit _ (by omega)
  · exact digitChar_isDigit _ (Nat.mod_lt _ (by omega))

/-- Counterexample to claim C5 as stated: Python `float()` parses `"inf"`,
so an `inf` cell is a parsed value, and the emitted line renders the
average and maximum as `inf` — not a rendering with two fractional digits
(the rendered statistic contains no decimal point at all). -/
theorem inf_value_breaks_two_digit_rendering :
    pyFloatOfVal (PyVal.pstr "inf") = some PyFloat.pinf ∧
    numericDetail "n" [[("n", PyVal.pstr "inf")], [("n", PyVal.pstr "1")]] =
      some "n: avg inf, min 1.00, max inf based on sample" ∧
    fmt2F PyFloat.pinf = "inf" ∧
    "inf".toList.contains '.' = false :=
  ⟨rfl, by decide, rfl, by decide⟩

/-- Amended claim C5: for a numeric column the engine parses exactly the
present, non-blank, parsable cells (including the non-finite floats `inf`,
`-inf`, `nan`); with at least one parsed value it emits exactly one detail
line in the documented format, whose average, minimum and maximum are
computed from the parsed subset by Python `sum`/`min`/`max` semantics and
rendered with two fractional digits when finite, the non-finite statistics
rendering as `inf`, `-inf` or `nan`; with no parsed value it emits
nothing; and the engine emits one optional line per declared numeric
column. -/
theorem numeric_insight_spec (col : String) (sample : List InsightRow) :
    numericVals col sample =
      sample.filterMap (fun r =>
        if pyGet r col = .pnone then none
        else if pyStrip (pyStr (pyGet r col)) = "" then none
        else pyFloatOfVal (pyGet r col)) ∧
    (numericVals col sample = [] → numericDetail col sample = none) ∧
    (∀ v vs, numericVals col sample = v :: vs →
      pyMin v vs ∈ v :: vs ∧
      (∀ y ∈ v :: vs, pyLt y (pyMin v vs) = false) ∧
      pyMax v vs ∈ v :: vs ∧
      (∀ y ∈ v :: vs, pyLt (pyMax v vs) y = false) ∧
      numericDetail col sample =
        some (col ++ ": avg " ++
          fmt2F (pyDivNat (pySum (v :: vs)) (v :: vs).length) ++ ", min " ++
          fmt2F (pyMin v vs) ++ ", max " ++ fmt2F (pyMax v vs) ++
          " based on sample")) ∧
    (∀ q : ℚ, fmt2F (.finite q) = fmt2 q ∧
      ∃ s c₁ c₂, fmt2 q = s ++ "." ++ String.mk [c₁, c₂] ∧
        c₁.isDigit ∧ c₂.isDigit) ∧
    (fmt2F .pinf = "inf" ∧ fmt2F .ninf = "-inf" ∧ fmt2F .nan = "nan") ∧
    (∀ columns : List (String × String),
      (generate_insights_core columns sample).2 =
        ((columns.filter (fun c => c.2 = "int" ∨ c.2 = "float")).map
            Prod.fst).filterMap (fun c => numericDetail c sample) ++
          ((columns.filter (fun c => c.2 = "string")).map Prod.fst).filterMap
            (fun c => catDetail c sample)) := by
  refine ⟨numericVals_eq_filterMap col sample, ?_, ?_,
    fun q => ⟨rfl, fmt2_two_fractional_digits q⟩, ⟨rfl, rfl, rfl⟩, ?_⟩
  · intro h
    unfold numericDetail
    rw [h]
  · intro v vs h
    refine ⟨pyMin_mem vs v, fun y hy => pyMin_not_lt vs v y hy,
      pyMax_mem vs v, fun y hy => pyMax_not_gt vs v y hy, ?_⟩
    unfold numericDetail
    rw [h]
  · intro columns
    have hnum := foldl_push_filterMap
      (fun (acc : List String) c =>
        match numericDetail c sample with
        | some line => acc ++ [line]
        | none => acc)
      (fun c => numericDetail c sample)
      (fun a c => by cases h : numericDetail c sample <;> simp [h])
    have hcat := foldl_push_filterMap
      (fun (acc : List String) c =>
        match catDetail c sample with
        | some line => acc ++ [line]
        | none => acc)
      (fun c => catDetail c sample)
      (fun a c => by cases h : catDetail c sample <;> simp [h])
    unfold generate_insights_core
    simp only []
    rw [hcat, hnum, List.nil_append]

/-- Witness for C5: the numeric column `["1","2","3"]` yields the line with
average `2.00`, minimum `1.00`, maximum `3.00`. -/
theorem numeric_insight_spec_witness :
    numericDetail "n"
        [[("n", PyVal.pstr "1")], [("n", PyVal.pstr "2")],
          [("n", PyVal.pstr "3")]] =
      some "n: avg 2.00, min 1.00, max 3.00 based on sample" := by
  have h := (numeric_insight_spec "n"
    [[("n", PyVal.pstr "1")], [("n", PyVal.pstr "2")],
      [("n", PyVal.pstr "3")]]).2.2.1 (.finite 1)
    [.finite 2, .finite 3] (by decide)
  rw [h.2.2.2.2]
  decide

/-- `addVote` keeps every existing key. -/
theorem addVote_keys_mono (tc : List (String × TypeCounts)) (k t x : String)
    (hx : x ∈ keysOf tc) : x ∈ keysOf (addVote tc k t) := by
  induction tc with
  | nil => simp [keysOf] at hx
  | cons p rest ih =>
    obtain ⟨k', c⟩ := p
    by_cases h : k' = k
    · simpa [addVote, h, keysOf] using hx
    · have h2 : addVote ((k', c) :: rest) k t = (k', c) :: addVote rest k t := by
        simp [addVote, h]
      rw [h2]
      rcases List.mem_cons.mp hx with h' | h'
      · simp [keysOf, h']
      · exact List.mem_cons_of_mem _ (ih h')

/-- `addVote` makes the voted key present. -/
theorem addVote_key_mem (tc : List (String × TypeCounts)) (k t : String) :
    k ∈ keysOf (addVote tc k t) := by
  induction tc with
  | nil => simp [addVote, keysOf]
  | cons p rest ih =>
    obtain ⟨k', c⟩ := p
    by_cases h : k' = k
    · simp [addVote, h, keysOf]
    · simpa [addVote, h, keysOf] using Or.inr ih

/-- Tallying a row keeps every existing key. -/
theorem tallyRow_keys_mono (row : Row) :
    ∀ (tc : List (String × TypeCounts)) (x : String), x ∈ keysOf tc →
      x ∈ keysOf (tallyRow tc row) := by
  induction row with
  | nil => intro tc x hx; exact hx
  | cons kv rest ih =>
    intro tc x hx
    exact ih _ x (addVote_keys_mono tc kv.1 _ x hx)

/-- Tallying a row makes every key of the row present. -/
theorem tallyRow_key_mem (row : Row) :
    ∀ (tc : List (String × TypeCounts)) (k : String) (v : Option String),
      (k, v) ∈ row → k ∈ keysOf (tallyRow tc row) := by
  induction row with
  | nil => intro tc k v hk; simp at hk
  | cons kv rest ih =>
    intro tc k v hk
    rcases List.mem_cons.mp hk with h | h
    · have : k ∈ keysOf (addVote tc kv.1 (infer_type (kv.2.getD ""))) := by
        rw [show k = kv.1 from congrArg Prod.fst h]
        exact addVote_key_mem tc kv.1 _
      exact tallyRow_keys_mono rest _ k this
    · exact ih _ k v h

/-- The fold of `tallyRow` over a row list keeps every existing key. -/
theorem foldl_tally_keys_mono (rows : List Row) :
    ∀ (acc : List (String × TypeCounts)) (x : String), x ∈ keysOf acc →
      x ∈ keysOf (rows.foldl tallyRow acc) := by
  induction rows with
  | nil => intro acc x hx; exact hx
  | cons r rest ih =>
    intro acc x hx
    exact ih _ x (tallyRow_keys_mono r acc x hx)

/-- Every key of every row ends up in the fold of `tallyRow`. -/
theorem foldl_tally_key_mem (rows : List Row) :
    ∀ (acc : List (String × TypeCounts)) (row : Row), row ∈ rows →
      ∀ (k : String) (v : Option String), (k, v) ∈ row →
        k ∈ keysOf (rows.foldl tallyRow acc) := by
  induction rows with
  | nil => intro acc row hrow; simp at hrow
  | cons r rest ih =>
    intro acc row hrow k v hk
    rcases List.mem_cons.mp hrow with h | h
    · have : k ∈ keysOf (tallyRow acc r) := by
        rw [h] at hk
        exact tallyRow_key_mem r acc k v hk
      exact foldl_tally_keys_mono rest _ k this
    · exact ih _ row h k v hk

/-- Claim C9: after a successful extraction, every key present in any
sample row appears as the name of some column descriptor. -/
theorem sample_keys_are_columns (rows : List Row) (res : ExtractResult)
    (h : extract rows = .ok res) :
    ∀ row ∈ res.sample, ∀ kv ∈ row, ∃ t, (kv.1, t) ∈ res.columns := by
  obtain ⟨rfl, -⟩ := extract_ok rows res h
  intro row hrow kv hkv
  have hrow' : row ∈ rows := List.take_subset 100 rows hrow
  have hk : kv.1 ∈ keysOf (finalTally rows) :=
    foldl_tally_key_mem rows [] row hrow' kv.1 kv.2 (by simpa using hkv)
  obtain ⟨p, hp, hpk⟩ := List.mem_map.mp hk
  exact ⟨bestType p.2, List.mem_map.mpr ⟨p, hp, by rw [hpk]⟩⟩

/-- Witness for C9 at a concrete two-column upload. -/
theorem sample_keys_are_columns_witness :
    ∃ t, (("a" : String), t) ∈
      (ExtractResult.mk [("a", "int"), ("b", "string")]
        [[("a", some "1"), ("b", some "x")]] 1).columns :=
  sample_keys_are_columns [[("a", some "1"), ("b", some "x")]] _ rfl
    [("a", some "1"), ("b", some "x")] (by decide) ("a", some "1") (by decide)

/-- `firstIdx` ignores a suffix when the element already occurs. -/
theorem firstIdx_append_left (a : String) (l l2 : List String)
    (h : a ∈ l) : firstIdx a (l ++ l2) = firstIdx a l := by
  induction l with
  | nil => simp at h
  | cons b rest ih =>
    by_cases hb : b = a
    · simp [firstIdx, hb]
    · rcases List.mem_cons.mp h with h' | h'
      · exact absurd h'.symm hb
      · simp [firstIdx, hb, ih h']

/-- The first index of a present element is below the length. -/
theorem firstIdx_lt_length (a : String) (l : List String) (h : a ∈ l) :
    firstIdx a l < l.length := by
  induction l with
  | nil => simp at h
  | cons b rest ih =>
    by_cases hb : b = a
    · simp [firstIdx, hb]
    · rcases List.mem_cons.mp h with h' | h'
      · exact absurd h'.symm hb
      · simpa [firstIdx, hb] using ih h'

/-- The first index of a freshly appended element is the old length. -/
theorem firstIdx_append_self (s : String) (l : List String) (h : s ∈ l → False) :
    firstIdx s (l ++ [s]) = l.length := by
  induction l with
  | nil => simp [firstIdx]
  | cons b rest ih =>
    have hb : b ≠ s := fun hbs => h (by simp [hbs])
    simp only [List.cons_append, firstIdx, if_neg hb, List.length_cons]
    rw [show rest.append [s] = rest ++ [s] from rfl,
      ih (fun hs => h (List.mem_cons_of_mem _ hs))]

/-- `counterAdd` on an absent key appends it with count 1. -/
theorem counterAdd_absent (acc : List (String × Nat)) (s : String)
    (h : s ∈ keysOf acc → False) : counterAdd acc s = acc ++ [(s, 1)] := by
  induction acc with
  | nil => rfl
  | cons p rest ih =>
    obtain ⟨k, n⟩ := p
    have hk : k ≠ s := fun hks => h (by simp [keysOf, hks])
    have h2 : counterAdd ((k, n) :: rest) s = (k, n) :: counterAdd rest s := by
      simp [counterAdd, hk]
    rw [h2, ih (fun hs => h (by simp [keysOf] at hs ⊢; exact Or.inr hs))]
    rfl

/-- `counterAdd` on a present key bumps it in place. -/
theorem counterAdd_present (acc : List (String × Nat)) (s : String)
    (h : s ∈ keysOf acc) :
    ∃ pre n post, acc = pre ++ (s, n) :: post ∧
      counterAdd acc s = pre ++ (s, n + 1) :: post := by
  induction acc with
  | nil => simp [keysOf] at h
  | cons p rest ih =>
    obtain ⟨k, n⟩ := p
    by_cases hk : k = s
    · refine ⟨[], n, rest, by simp [hk], ?_⟩
      simp [counterAdd, hk]
    · have h' : s ∈ keysOf rest := by
        rcases List.mem_cons.mp h with h' | h'
        · exact absurd h'.symm hk
        · exact h'
      obtain ⟨pre, m, post, hdec, hadd⟩ := ih h'
      refine ⟨(k, n) :: pre, m, post, by simp [hdec], ?_⟩
      have h2 : counterAdd ((k, n) :: rest) s = (k, n) :: counterAdd rest s := by
        simp [counterAdd, hk]
      rw [h2, hadd]
      rfl

/-- `counter` over a snoc ends with one `counterAdd`. -/
theorem counter_snoc (l : List String) (s : String) :
    counter (l ++ [s]) = counterAdd (counter l) s := by
  simp [counter, List.foldl_append]

/-- Structure of `collections.Counter` over a string list: distinct keys,
each key paired with its number of occurrences, all occurring values
covered, and keys listed in first-encountered order. -/
theorem counter_props (l : List String) :
    (keysOf (counter l)).Nodup ∧
    (∀ p ∈ counter l, p.1 ∈ l ∧ p.2 = l.count p.1) ∧
    (∀ x ∈ l, x ∈ keysOf (counter l)) ∧
    (keysOf (counter l)).Pairwise
      (fun a b => firstIdx a l < firstIdx b l) := by
  induction l using List.reverseRecOn with
  | nil =>
    exact ⟨by simp [counter, keysOf], by simp [counter], by simp,
      by simp [counter, keysOf]⟩
  | append_singleton l s ih =>
    obtain ⟨hnd, hcount, hcover, hpair⟩ := ih
    have hkey_mem : ∀ x ∈ keysOf (counter l), x ∈ l := by
      intro x hx
      obtain ⟨p, hp, hpx⟩ := List.mem_map.mp hx
      exact hpx ▸ (hcount p hp).1
    rw [counter_snoc]
    by_cases hs : s ∈ keysOf (counter l)
    · obtain ⟨pre, n, post, hdec, hadd⟩ := counterAdd_present (counter l) s hs
      rw [hadd]
      have hkeys : keysOf (pre ++ (s, n + 1) :: post) = keysOf (counter l) := by
        rw [hdec]; simp [keysOf]
      have hknd : (keysOf pre ++ s :: keysOf post).Nodup := by
        have := hnd
        rw [hdec] at this
        simpa [keysOf] using this
      have hs_not_pre : s ∉ keysOf pre := by
        intro hmem
        exact (List.nodup_append.mp hknd).2.2 hmem (by simp)
      have hs_not_post : s ∉ keysOf post :=
        (List.nodup_cons.mp (List.nodup_append.mp hknd).2.1).1
      refine ⟨?_, ?_, ?_, ?_⟩
      · rw [hkeys]; exact hnd
      · intro p hp
        rcases List.mem_append.mp hp with hpre | hrest
        · have hpold : p ∈ counter l := by
            rw [hdec]; exact List.mem_append_left _ hpre
          obtain ⟨hin, hcnt⟩ := hcount p hpold
          have hne : p.1 ≠ s := by
            intro he
            exact hs_not_pre (he ▸ List.mem_map.mpr ⟨p, hpre, rfl⟩)
          refine ⟨List.mem_append_left _ hin, ?_⟩
          rw [List.count_append, List.count_singleton',
            if_neg (fun h' => hne h'.symm)]
          omega
        · rcases List.mem_cons.mp hrest with hpe | hpost
          · have hold : (s, n) ∈ counter l := by
              rw [hdec]
              exact List.mem_append_right _ (List.mem_cons_self _ _)
            obtain ⟨hin, hcnt⟩ := hcount (s, n) hold
            subst hpe
            refine ⟨by simp, ?_⟩
            rw [List.count_append, List.count_singleton', if_pos rfl]
            simp only at hcnt ⊢
            omega
          · have hpold : p ∈ counter l := by
              rw [hdec]
              exact List.mem_append_right _ (List.mem_cons_of_mem _ hpost)
            obtain ⟨hin, hcnt⟩ := hcount p hpold
            have hne : p.1 ≠ s := by
              intro he
              exact hs_not_post (he ▸ List.mem_map.mpr ⟨p, hpost, rfl⟩)
            refine ⟨List.mem_append_left _ hin, ?_⟩
            rw [List.count_append, List.count_singleton',
              if_neg (fun h' => hne h'.symm)]
            omega
      · intro x hx
        rw [hkeys]
        rcases List.mem_append.mp hx with hxl | hxs
        · exact hcover x hxl
        · simp only [List.mem_singleton] at hxs
          exact hxs ▸ hs
      · rw [hkeys]
        refine List.Pairwise.imp_of_mem ?_ hpair
        intro a b ha hb hr
        rw [firstIdx_append_left a l [s] (hkey_mem a ha),
          firstIdx_append_left b l [s] (hkey_mem b hb)]
        exact hr
    · rw [counterAdd_absent (counter l) s (fun h => hs h)]
      have hsl : s ∉ l := fun hmem => hs (hcover s hmem)
      have hkeys2 : keysOf (counter l ++ [(s, 1)]) = keysOf (counter l) ++ [s] := by
        simp [keysOf]
      refine ⟨?_, ?_, ?_, ?_⟩
      · rw [hkeys2]
        refine List.nodup_append.mpr ⟨hnd, by simp, ?_⟩
        intro x hx hxs
        simp only [List.mem_singleton] at hxs
        subst hxs
        exact hs hx
      · intro p hp
        rcases List.mem_append.mp hp with hpold | hpnew
        · obtain ⟨hin, hcnt⟩ := hcount p hpold
          have hne : p.1 ≠ s := fun he =>
            hs (he ▸ List.mem_map.mpr ⟨p, hpold, rfl⟩)
          refine ⟨List.mem_append_left _ hin, ?_⟩
          rw [List.count_append, List.count_singleton',
            if_neg (fun h' => hne h'.symm)]
          omega
        · simp only [List.mem_singleton] at hpnew
          subst hpnew
          refine ⟨by simp, ?_⟩
          rw [List.count_append, List.count_singleton', if_pos rfl,
            List.count_eq_zero.mpr hsl]
      · intro x hx
        rw [hkeys2]
        rcases List.mem_append.mp hx with hxl | hxs
        · exact List.mem_append_left _ (hcover x hxl)
        · simp only [List.mem_singleton] at hxs
          subst hxs
          exact List.mem_append_right _ (by simp)
      · rw [hkeys2]
        refine List.pairwise_append.mpr ⟨?_, by simp, ?_⟩
        · refine List.Pairwise.imp_of_mem ?_ hpair
          intro a b ha hb hr
          rw [firstIdx_append_left a l [s] (hkey_mem a ha),
            firstIdx_append_left b l [s] (hkey_mem b hb)]
          exact hr
        · intro a ha b hb
          simp only [List.mem_singleton] at hb
          subst hb
          rw [firstIdx_append_left a l [b] (hkey_mem a ha),
            firstIdx_append_self b l (fun h => hsl h)]
          exact firstIdx_lt_length a l (hkey_mem a ha)

/-- The `most_common(1)` scan returns an element of the list, at least as
large as the start, and splits the list into a strictly smaller prefix and
a no-larger suffix around its first occurrence. -/
theorem pickMax_split (xs : List (String × Nat)) :
    ∀ x : String × Nat,
      x.2 ≤ (pickMax x xs).2 ∧
      ∃ pre post, x :: xs = pre ++ pickMax x xs :: post ∧
        (∀ p ∈ pre, p.2 < (pickMax x xs).2) ∧
        (∀ p ∈ post, p.2 ≤ (pickMax x xs).2) := by
  induction xs with
  | nil =>
    intro x
    exact ⟨le_refl _, [], [], rfl, by simp, by simp⟩
  | cons kv rest ih =>
    intro x
    have hstep : pickMax x (kv :: rest) =
        pickMax (if x.2 < kv.2 then kv else x) rest := rfl
    by_cases h : x.2 < kv.2
    · rw [hstep, if_pos h]
      obtain ⟨hle, pre, post, hdec, hpre, hpost⟩ := ih kv
      refine ⟨le_of_lt (lt_of_lt_of_le h hle), x :: pre, post, ?_, ?_, hpost⟩
      · rw [List.cons_append, ← hdec]
      · intro p hp
        rcases List.mem_cons.mp hp with h' | h'
        · rw [h']
          exact lt_of_lt_of_le h hle
        · exact hpre p h'
    · rw [hstep, if_neg h]
      obtain ⟨hle, pre, post, hdec, hpre, hpost⟩ := ih x
      cases pre with
      | nil =>
        simp only [List.nil_append] at hdec
        have hx : pickMax x rest = x := (List.cons.injEq _ _ _ _).mp hdec |>.1.symm
        have hrest : rest = post := (List.cons.injEq _ _ _ _).mp hdec |>.2
        refine ⟨hle, [], kv :: post, ?_, by simp, ?_⟩
        · rw [List.nil_append, hx, ← hrest]
        · intro p hp
          rcases List.mem_cons.mp hp with h' | h'
          · rw [h', hx]
            exact le_of_not_lt h
          · exact hpost p h'
      | cons p0 pre' =>
        simp only [List.cons_append] at hdec
        have hp0 : p0 = x := ((List.cons.injEq _ _ _ _).mp hdec).1.symm
        have hrest : rest = pre' ++ pickMax x rest :: post :=
          ((List.cons.injEq _ _ _ _).mp hdec).2
        have hxlt : x.2 < (pickMax x rest).2 := by
          have := hpre p0 (List.mem_cons_self _ _)
          rw [hp0] at this
          exact this
        refine ⟨hle, x :: kv :: pre', post, ?_, ?_, hpost⟩
        · rw [List.cons_append, List.cons_append, ← hrest]
        · intro p hp
          rcases List.mem_cons.mp hp with h' | h'
          · rw [h']
            exact hxlt
          · rcases List.mem_cons.mp h' with h'' | h''
            · rw [h'']
              exact lt_of_le_of_lt (le_of_not_lt h) hxlt
            · exact hpre p (List.mem_cons_of_mem _ h'')

/-- Claim C6: for a categorical column the engine counts the occurrences
of each distinct non-null, non-empty value of the sample; when any exist it
emits the documented line for a value of maximal count, ties broken in
favour of the first-encountered value; when none exist it emits nothing. -/
theorem categorical_insight_spec (col : String) (sample : List InsightRow) :
    (catVals col sample = [] → catDetail col sample = none) ∧
    (catVals col sample ≠ [] → ∃ t c,
      t ∈ catVals col sample ∧ c = (catVals col sample).count t ∧
      (∀ v : String, (catVals col sample).count v ≤ c) ∧
      (∀ v ∈ catVals col sample, (catVals col sample).count v = c →
        firstIdx t (catVals col sample) ≤ firstIdx v (catVals col sample)) ∧
      catDetail col sample =
        some (col ++ ": most frequent value is '" ++ t ++ "' (" ++
          toString c ++ " occurrences in sample)")) := by
  constructor
  · intro h
    unfold catDetail
    rw [h]
    rfl
  · intro hne
    set vs := catVals col sample with hvs
    obtain ⟨hnd, hcount, hcover, hpair⟩ := counter_props vs
    obtain ⟨v0, vs', hv⟩ : ∃ v0 vs', vs = v0 :: vs' := by
      cases hvv : vs with
      | nil => exact absurd hvv hne
      | cons a b => exact ⟨a, b, rfl⟩
    have hv0 : v0 ∈ keysOf (counter vs) := hcover v0 (by rw [hv]; simp)
    obtain ⟨y, ys, hc⟩ : ∃ y ys, counter vs = y :: ys := by
      cases hcc : counter vs with
      | nil => rw [hcc] at hv0; simp [keysOf] at hv0
      | cons a b => exact ⟨a, b, rfl⟩
    obtain ⟨hyle, pre, post, hdec, hpre, hpost⟩ := pickMax_split ys y
    rcases hwe : pickMax y ys with ⟨t, c⟩
    rw [hwe] at hyle hdec hpre hpost
    have hwin : (t, c) ∈ counter vs := by
      rw [hc, hdec]
      exact List.mem_append_right _ (List.mem_cons_self _ _)
    obtain ⟨htin, htcount⟩ := hcount (t, c) hwin
    have hkeys : keysOf (counter vs) = keysOf pre ++ t :: keysOf post := by
      rw [hc, hdec]
      simp [keysOf]
    have hdetail : catDetail col sample =
        some (col ++ ": most frequent value is '" ++ t ++ "' (" ++
          toString c ++ " occurrences in sample)") := by
      unfold catDetail
      rw [← hvs, hc]
      show (match mostCommon1 (y :: ys) with
            | none => none
            | some (top, cnt) =>
              some (col ++ ": most frequent value is '" ++ top ++ "' (" ++
                toString cnt ++ " occurrences in sample)")) = _
      rw [show mostCommon1 (y :: ys) = some (pickMax y ys) from rfl, hwe]
    refine ⟨t, c, htin, htcount, ?_, ?_, hdetail⟩
    · intro v
      by_cases hvin : v ∈ vs
      · obtain ⟨p, hp, hpv⟩ := List.mem_map.mp (hcover v hvin)
        obtain ⟨hpin, hpcnt⟩ := hcount p hp
        have hcv : vs.count v = p.2 := by rw [hpcnt, hpv]
        rw [hcv]
        have hp' : p ∈ pre ++ (t, c) :: post := by
          rw [← hdec, ← hc]
          exact hp
        rcases List.mem_append.mp hp' with hpp | hpp
        · exact le_of_lt (hpre p hpp)
        · rcases List.mem_cons.mp hpp with hpe | hpp'
          · rw [hpe]
          · exact hpost p hpp'
      · rw [List.count_eq_zero.mpr hvin]
        exact Nat.zero_le c
    · intro v hvin hvcnt
      by_cases hveq : v = t
      · rw [hveq]
      · obtain ⟨p, hp, hpv⟩ := List.mem_map.mp (hcover v hvin)
        obtain ⟨hpin, hpcnt⟩ := hcount p hp
        have hp2 : p.2 = c := by rw [hpcnt, hpv, hvcnt]
        have hp' : p ∈ pre ++ (t, c) :: post := by
          rw [← hdec, ← hc]
          exact hp
        rcases List.mem_append.mp hp' with hpp | hpp
        · exact absurd hp2 (Nat.ne_of_lt (hpre p hpp))
        · rcases List.mem_cons.mp hpp with hpe | hpp'
          · exact absurd (by rw [← hpv, hpe]) hveq
          · have hpairs := hpair
            rw [hkeys] at hpairs
            have h3 := (List.pairwise_cons.mp
              (List.pairwise_append.mp hpairs).2.1).1
            have hvpost : v ∈ keysOf post :=
              hpv ▸ List.mem_map.mpr ⟨p, hpp', rfl⟩
            exact le_of_lt (h3 v hvpost)

/-- Witness for C6: the values `["a","b","a"]` give most frequent `"a"`
with 2 occurrences. -/
theorem categorical_insight_spec_witness :
    ∃ t c,
      t ∈ catVals "c"
          [[("c", PyVal.pstr "a")], [("c", PyVal.pstr "b")],
            [("c", PyVal.pstr "a")]] ∧
      c = (catVals "c"
          [[("c", PyVal.pstr "a")], [("c", PyVal.pstr "b")],
            [("c", PyVal.pstr "a")]]).count t ∧
      (∀ v : String,
        (catVals "c"
          [[("c", PyVal.pstr "a")], [("c", PyVal.pstr "b")],
            [("c", PyVal.pstr "a")]]).count v ≤ c) ∧
      (∀ v ∈ catVals "c"
          [[("c", PyVal.pstr "a")], [("c", PyVal.pstr "b")],
            [("c", PyVal.pstr "a")]],
        (catVals "c"
          [[("c", PyVal.pstr "a")], [("c", PyVal.pstr "b")],
            [("c", PyVal.pstr "a")]]).count v = c →
        firstIdx t (catVals "c"
          [[("c", PyVal.pstr "a")], [("c", PyVal.pstr "b")],
            [("c", PyVal.pstr "a")]]) ≤
          firstIdx v (catVals "c"
            [[("c", PyVal.pstr "a")], [("c", PyVal.pstr "b")],
              [("c", PyVal.pstr "a")]])) ∧
      catDetail "c"
          [[("c", PyVal.pstr "a")], [("c", PyVal.pstr "b")],
            [("c", PyVal.pstr "a")]] =
        some ("c: most frequent value is '" ++ t ++ "' (" ++ toString c ++
          " occurrences in sample)") :=
  (categorical_insight_spec "c"
    [[("c", PyVal.pstr "a")], [("c", PyVal.pstr "b")],
      [("c", PyVal.pstr "a")]]).2 (by decide)

/-- Claim C10: in categorical mode only the exact values `None` and `""`
are excluded from counting: a whitespace-only string counts (whereas the
numeric path strips and skips it), and non-string values are coerced with
`str()`, so the integer `1` and the string `"1"` count as the same value. -/
theorem categorical_filter_exact :
    (∀ (col : String) (sample : List InsightRow),
      catVals col sample =
        sample.filterMap (fun r =>
          if pyGet r col = .pnone ∨ pyGet r col = .pstr "" then none
          else some (pyStr (pyGet r col)))) ∧
    catVals "c" [[("c", PyVal.pstr " ")]] = [" "] ∧
    numericVals "c" [[("c", PyVal.pstr " ")]] = [] ∧
    pyStr (PyVal.pint 1) = pyStr (PyVal.pstr "1") ∧
    catDetail "c" [[("c", PyVal.pint 1)], [("c", PyVal.pstr "1")]] =
      some "c: most frequent value is '1' (2 occurrences in sample)" :=
  ⟨catVals_eq_filterMap, by decide, by decide, rfl, by decide⟩

end Analytics
